import Mathlib

/-!
Verification of the mathpaste-gtk file codec and JavaScript bridge.

The program persists math text either as a plain UTF-8 text file or as a
zip container with entries `math.txt`, and optionally `drawing-data.txt`
and `drawing.png`.  A WebKit view exchanges state with the embedded page
through a correlation-id callback dictionary and a custom URI scheme.

Files are modelled as lists of bytes (`Nat` below 256), strings as lists
of `Char`.  Library operations the program calls (UTF-8 / ASCII codecs,
base64, zip archives, URI unquoting, JSON parsing) are modelled
executably at the level of detail the program's behaviour depends on.
-/

deriving instance DecidableEq for Except

namespace MathpasteGtk

/-! ### UTF-8 codec, modelling Python's strict utf-8 encode/decode -/

/-- UTF-8 encoding of one scalar value, as `str.encode('utf-8')` produces. -/
def utf8EncodeChar (c : Char) : List Nat :=
  let n := c.toNat
  if n < 0x80 then [n]
  else if n < 0x800 then [0xC0 + n / 64, 0x80 + n % 64]
  else if n < 0x10000 then [0xE0 + n / 4096, 0x80 + n / 64 % 64, 0x80 + n % 64]
  else [0xF0 + n / 262144, 0x80 + n / 4096 % 64, 0x80 + n / 64 % 64, 0x80 + n % 64]

/-- UTF-8 encoding of a string. -/
def utf8Encode : List Char → List Nat
  | [] => []
  | c :: cs => utf8EncodeChar c ++ utf8Encode cs

/-- Is `b` a UTF-8 continuation byte? -/
def isCont (b : Nat) : Bool := 0x80 ≤ b && b < 0xC0

/-- Strict UTF-8 decoding (Python's `bytes.decode('utf-8')` with the default
`strict` error handler), written as a byte-at-a-time state machine so that it
is structurally recursive.  The state carries the accumulated scalar value,
the number of continuation bytes still expected, and the smallest scalar
value the sequence is allowed to produce (to reject overlong forms);
surrogates and values above `0x10FFFF` are rejected as well. -/
def utf8DecodeSM : Option (Nat × Nat × Nat) → List Nat → Option (List Char)
  | none, [] => some []
  | some _, [] => none
  | none, b :: rest =>
    if b < 0x80 then (utf8DecodeSM none rest).map (fun cs => Char.ofNat b :: cs)
    else if b < 0xC2 then none
    else if b < 0xE0 then utf8DecodeSM (some (b - 0xC0, 1, 0x80)) rest
    else if b < 0xF0 then utf8DecodeSM (some (b - 0xE0, 2, 0x800)) rest
    else if b < 0xF5 then utf8DecodeSM (some (b - 0xF0, 3, 0x10000)) rest
    else none
  | some (acc, r, mv), b :: rest =>
    if isCont b then
      if r = 1 then
        if acc * 64 + (b - 0x80) < mv ∨
           (0xD800 ≤ acc * 64 + (b - 0x80) ∧ acc * 64 + (b - 0x80) < 0xE000) ∨
           0x110000 ≤ acc * 64 + (b - 0x80) then none
        else
          (utf8DecodeSM none rest).map
            (fun cs => Char.ofNat (acc * 64 + (b - 0x80)) :: cs)
      else utf8DecodeSM (some (acc * 64 + (b - 0x80), r - 1, mv)) rest
    else none

/-- Strict UTF-8 decoding of a byte string. -/
def utf8Decode (l : List Nat) : Option (List Char) := utf8DecodeSM none l

/-! ### ASCII codec, modelling Python's strict ascii encode/decode -/

/-- Model of `str.encode('ascii')`: fails on any character at or above `0x80`. -/
def asciiEncode (s : List Char) : Option (List Nat) :=
  if s.all (fun c => c.toNat < 0x80) then some (s.map Char.toNat) else none

/-- Model of `bytes.decode('ascii')`: fails on any byte at or above `0x80`. -/
def asciiDecode (l : List Nat) : Option (List Char) :=
  if l.all (fun b => b < 0x80) then some (l.map Char.ofNat) else none

/-! ### Universal newlines

Python text-mode reads (`open(path, 'r')` with the default `newline=None`)
translate `"\r\n"` and `"\r"` to `"\n"` in the decoded text.  Text-mode
writes translate `"\n"` to `os.linesep`, which on the POSIX systems this
GTK program runs on is `"\n"` again, i.e. the identity. -/

/-- Byte-at-a-time newline translation; the flag records that the previous
character was a still-pending `'\r'` (whose following `'\n'`, if any, is
absorbed). -/
def unlAux : Bool → List Char → List Char
  | false, [] => []
  | true, [] => ['\n']
  | false, c :: rest =>
    if c = '\r' then unlAux true rest
    else c :: unlAux false rest
  | true, c :: rest =>
    if c = '\n' then '\n' :: unlAux false rest
    else if c = '\r' then '\n' :: unlAux true rest
    else '\n' :: c :: unlAux false rest

/-- Translate `"\r\n"` and `"\r"` to `"\n"`, as Python text-mode reads do. -/
def universalNewlines (s : List Char) : List Char := unlAux false s

/-! ### Splitting on commas, modelling `str.split(',')` and `str.split(',', 1)` -/

/-- Python's `s.split(',')`: all the comma-separated groups. -/
def splitOnComma : List Char → List (List Char)
  | [] => [[]]
  | c :: rest =>
    if c = ',' then [] :: splitOnComma rest
    else
      match splitOnComma rest with
      | g :: gs => (c :: g) :: gs
      | [] => [[c]]

/-- Python's `s.split(',', 1)`: the text before the first comma and the text
after it, or `none` when there is no comma (in which case unpacking into two
variables raises `ValueError`). -/
def splitFirstComma : List Char → Option (List Char × List Char)
  | [] => none
  | c :: rest =>
    if c = ',' then some ([], rest)
    else (splitFirstComma rest).map (fun p => (c :: p.1, p.2))

/-- Joining the groups back with commas: the inverse view of `splitOnComma`. -/
def joinComma : List (List Char) → List Char
  | [] => []
  | [g] => g
  | g :: g2 :: gs => g ++ ',' :: joinComma (g2 :: gs)

/-! ### Base64 decoding, modelling `base64.b64decode` -/

/-- The value of a base64 alphabet character. -/
def b64charVal (c : Char) : Option Nat :=
  if 65 ≤ c.toNat ∧ c.toNat ≤ 90 then some (c.toNat - 65)
  else if 97 ≤ c.toNat ∧ c.toNat ≤ 122 then some (c.toNat - 97 + 26)
  else if 48 ≤ c.toNat ∧ c.toNat ≤ 57 then some (c.toNat - 48 + 52)
  else if c = '+' then some 62
  else if c = '/' then some 63
  else none

/-- Model of `base64.b64decode` on the well-formed inputs the program ever produces:
groups of four alphabet characters, with `=` padding allowed only in the
final group; anything else fails (raises `binascii.Error`). -/
def b64decode : List Char → Option (List Nat)
  | [] => some []
  | c1 :: c2 :: c3 :: c4 :: rest =>
    match b64charVal c1, b64charVal c2 with
    | some v1, some v2 =>
      if c3 = '=' then
        if c4 = '=' ∧ rest = [] then some [v1 * 4 + v2 / 16] else none
      else
        match b64charVal c3 with
        | some v3 =>
          if c4 = '=' then
            if rest = [] then some [v1 * 4 + v2 / 16, v2 % 16 * 16 + v3 / 4] else none
          else
            match b64charVal c4 with
            | some v4 =>
              (b64decode rest).map
                (fun bs => (v1 * 4 + v2 / 16) :: (v2 % 16 * 16 + v3 / 4) ::
                  (v3 % 4 * 64 + v4) :: bs)
            | none => none
        | none => none
    | _, _ => none
  | _ => none

/-! ### Zip archives, modelling the `zipfile` containers the program uses

A mathpaste zip is an archive of named entries.  The model keeps the two
facts the program's behaviour depends on: a zip file begins with the local
file header signature `50 4B 03 04`, and a structurally valid archive is a
serialization of a list of named entries that parsing recovers exactly
(anything else raises `zipfile.BadZipFile`).  Entry payload sizes are
length-prefixed with a self-delimiting byte encoding. -/

/-- The zip local-file-header magic bytes `PK\x03\x04`. -/
def zipMagic : List Nat := [0x50, 0x4B, 0x03, 0x04]

/-- Self-delimiting length encoding: little-endian base-255 digits
(each below 255) closed by a terminator byte 255. -/
def lenEncodeAux : Nat → Nat → List Nat
  | _, 0 => [255]
  | 0, _ + 1 => []
  | fuel + 1, n + 1 => ((n + 1) % 255) :: lenEncodeAux fuel ((n + 1) / 255)

def lenEncode (n : Nat) : List Nat := lenEncodeAux n n

def lenDecode : List Nat → Option (Nat × List Nat)
  | [] => none
  | b :: rest =>
    if b = 255 then some (0, rest)
    else if b < 255 then
      match lenDecode rest with
      | some (n, r) => some ((n * 255 + b), r)
      | none => none
    else none

/-- A named member of a zip archive. -/
structure ZipEntry where
  name : List Char
  data : List Nat
deriving DecidableEq

def zipSerializeEntry (e : ZipEntry) : List Nat :=
  zipMagic ++ lenEncode (utf8Encode e.name).length ++ utf8Encode e.name
    ++ lenEncode e.data.length ++ e.data

def zipSerialize : List ZipEntry → List Nat
  | [] => []
  | e :: es => zipSerializeEntry e ++ zipSerialize es

def zipParseEntry (l : List Nat) : Option (ZipEntry × List Nat) :=
  if l.take 4 = zipMagic then
    match lenDecode (l.drop 4) with
    | some (nlen, r1) =>
      if nlen ≤ r1.length then
        match utf8Decode (r1.take nlen) with
        | some name =>
          match lenDecode (r1.drop nlen) with
          | some (dlen, r2) =>
            if dlen ≤ r2.length then some (⟨name, r2.take dlen⟩, r2.drop dlen)
            else none
          | none => none
        | none => none
      else none
    | none => none
  else none

def zipParseAux : Nat → List Nat → Option (List ZipEntry)
  | _, [] => some []
  | 0, _ :: _ => none
  | fuel + 1, b :: rest =>
    match zipParseEntry (b :: rest) with
    | some (e, r) => (zipParseAux fuel r).map (fun es => e :: es)
    | none => none

/-- Parse a whole archive (`zipfile.ZipFile(path)`); `none` models
`zipfile.BadZipFile`. -/
def zipParse (l : List Nat) : Option (List ZipEntry) := zipParseAux l.length l

/-- Model of `zipfile.ZipFile.namelist()`. -/
def namelist (es : List ZipEntry) : List (List Char) := es.map ZipEntry.name

/-- Model of `zipfile.ZipFile.open(name)` followed by `.read()`: the data of the
first entry with the given name. -/
def zipOpen : List ZipEntry → List Char → Option (List Nat)
  | [], _ => none
  | e :: es, n => if e.name = n then some e.data else zipOpen es n

/-! ### The file codec: `read_mathpaste_file` and `write_mathpaste_file` -/

/-- The `FileType` enum (the Gtk file-filter payloads are presentation
only and are not modelled). -/
inductive FileType
  | TEXT
  | ZIP
deriving DecidableEq

/-- The exceptions `read_mathpaste_file` documents and `open_file` handles. -/
inductive ReadError
  | osError
  | unicodeError
  | badZipFile
  | notAMathPasteGtkZipFileError
deriving DecidableEq

/-- The exceptions the write path can raise beyond `OSError`. -/
inductive WriteError
  | valueError
  | assertionError
  | unicodeEncodeError
  | binasciiError
deriving DecidableEq

def mathTxtName : List Char := "math.txt".toList

def drawingDataName : List Char := "drawing-data.txt".toList

def drawingPngName : List Char := "drawing.png".toList

/-- The mandatory data-url prelude `data:image/png;base64` (the part before
the comma). -/
def pngDataUrlKind : List Char := "data:image/png;base64".toList

/-- Model of `read_mathpaste_file(filename)`.  The argument is the file's content
(`none` when opening or reading the file raises `OSError`).  Returns
`(filetype, math, image_string)` or the exception raised:

* the first four bytes are compared against the zip signature;
* a signature match opens the bytes as a zip archive (`badZipFile` when
  that fails), requires a `math.txt` entry (its absence — equivalently a
  failing `namelist` membership test — raises
  `notAMathPasteGtkZipFileError`), decodes it as UTF-8, and decodes an
  optional `drawing-data.txt` entry as ASCII;
* anything else is read as UTF-8 text (with universal-newline
  translation) and no drawing. -/
def read_mathpaste_file (contents : Option (List Nat)) :
    Except ReadError (FileType × List Char × List Char) :=
  match contents with
  | none => Except.error ReadError.osError
  | some bytes =>
    if bytes.take 4 = zipMagic then
      match zipParse bytes with
      | none => Except.error ReadError.badZipFile
      | some entries =>
        match zipOpen entries mathTxtName with
        | none => Except.error ReadError.notAMathPasteGtkZipFileError
        | some mathBytes =>
          match utf8Decode mathBytes with
          | none => Except.error ReadError.unicodeError
          | some math =>
            match zipOpen entries drawingDataName with
            | some dBytes =>
              match asciiDecode dBytes with
              | none => Except.error ReadError.unicodeError
              | some image_string => Except.ok (FileType.ZIP, math, image_string)
            | none => Except.ok (FileType.ZIP, math, [])
    else
      match utf8Decode bytes with
      | none => Except.error ReadError.unicodeError
      | some text => Except.ok (FileType.TEXT, universalNewlines text, [])

/-- Model of `write_mathpaste_file(filename, filetype, math, image_string,
image_dataurl)`, returning the bytes written to the file:

* `TEXT`: the UTF-8 bytes of `math` (text-mode newline translation is the
  identity on the POSIX systems the program runs on);
* `ZIP`: an archive with `math.txt`, and, when `image_string` is truthy
  (non-empty), also `drawing-data.txt` (ASCII) and `drawing.png`, the
  base64 decode of what follows the comma in `image_dataurl`, whose head
  `prefix, b64data = image_dataurl.split(',')` unpacking demands exactly
  one comma and whose lead part is asserted to be
  `data:image/png;base64`. -/
def write_mathpaste_file (filetype : FileType)
    (math image_string image_dataurl : List Char) :
    Except WriteError (List Nat) :=
  match filetype with
  | FileType.TEXT => Except.ok (utf8Encode math)
  | FileType.ZIP =>
    if image_string = [] then
      Except.ok (zipSerialize [⟨mathTxtName, utf8Encode math⟩])
    else
      match asciiEncode image_string with
      | none => Except.error WriteError.unicodeEncodeError
      | some imgBytes =>
        match splitOnComma image_dataurl with
        | [kind, b64data] =>
          if kind = pngDataUrlKind then
            match b64decode b64data with
            | some png =>
              Except.ok (zipSerialize
                [⟨mathTxtName, utf8Encode math⟩,
                 ⟨drawingDataName, imgBytes⟩,
                 ⟨drawingPngName, png⟩])
            | none => Except.error WriteError.binasciiError
          else Except.error WriteError.assertionError
        | _ => Except.error WriteError.valueError

/-! ### The window's save and open paths -/

/-- What the window does around one write: the bytes written (if any), and
how many error dialogs, how many "drawing not saved" warning dialogs, a
`set_saved(True)` call and a success-callback run happened. -/
structure SaveOutcome where
  written : Option (List Nat)
  error_dialogs : Nat
  warning_dialogs : Nat
  set_saved : Bool
  callback_run : Bool
deriving DecidableEq

/-- The body of `callback_for_view` inside `MathpasteWindow.save`: write the
file (any exception shows an error dialog and aborts), then `set_saved(True)`,
then, when the filetype is TEXT and the drawing string is truthy, show the
"Your drawing wasn't saved" warning dialog once, then run the callback. -/
def save_callback_for_view (current_filetype : FileType)
    (math imageString imageDataUrl : List Char) : SaveOutcome :=
  match write_mathpaste_file current_filetype math imageString imageDataUrl with
  | Except.error _ => ⟨none, 1, 0, false, false⟩
  | Except.ok file =>
    ⟨some file, 0,
     (if current_filetype = FileType.TEXT ∧ imageString ≠ [] then 1 else 0),
     true, true⟩

/-- The per-window state that `open_file` can change. -/
structure WindowState where
  current_filename : Option (List Char)
  current_filetype : Option FileType
  saved : Bool
deriving DecidableEq

/-- What one `open_file` call produced: the window state afterwards, the
document pushed to the embedded page via `show_math_and_image` (if any),
and how many error dialogs were shown. -/
structure OpenOutcome where
  window : WindowState
  pushed : Option (List Char × List Char)
  error_dialogs : Nat
deriving DecidableEq

/-- Model of `MathpasteWindow.open_file`: read the file (every exception class is
caught, shows one labelled error dialog and returns early); only on success
push the document into the view, set the current file and mark saved. -/
def open_file (st : WindowState) (path : List Char)
    (contents : Option (List Nat)) : OpenOutcome :=
  match read_mathpaste_file contents with
  | Except.error _ => ⟨st, none, 1⟩
  | Except.ok (filetype, math, image_string) =>
    ⟨⟨some path, some filetype, true⟩, some (math, image_string), 0⟩

/-! ### Percent-decoding, modelling `urllib.parse.unquote`

`unquote` turns runs of `%XX` escapes into bytes and decodes each run as
UTF-8 with `errors='replace'`; everything else passes through unchanged. -/

/-- The replacement character U+FFFD. -/
def replChar : Char := Char.ofNat 0xFFFD

/-- Total UTF-8 decoding with replacement: a malformed lead byte yields
U+FFFD and decoding resynchronises at the next byte (the
`errors='replace'` handler).  Fuelled by the input length so that the
recursion is structural. -/
def utf8DecodeReplaceAux : Nat → List Nat → List Char
  | 0, _ => []
  | _ + 1, [] => []
  | fuel + 1, b :: rest =>
    if b < 0x80 then Char.ofNat b :: utf8DecodeReplaceAux fuel rest
    else if b < 0xC2 then replChar :: utf8DecodeReplaceAux fuel rest
    else if b < 0xE0 then
      match rest with
      | b1 :: rest1 =>
        if isCont b1 then
          Char.ofNat ((b - 0xC0) * 64 + (b1 - 0x80)) :: utf8DecodeReplaceAux fuel rest1
        else replChar :: utf8DecodeReplaceAux fuel rest
      | [] => [replChar]
    else if b < 0xF0 then
      match rest with
      | b1 :: b2 :: rest2 =>
        if isCont b1 && isCont b2 &&
           decide (0x800 ≤ (b - 0xE0) * 4096 + (b1 - 0x80) * 64 + (b2 - 0x80)) &&
           !(decide (0xD800 ≤ (b - 0xE0) * 4096 + (b1 - 0x80) * 64 + (b2 - 0x80)) &&
             decide ((b - 0xE0) * 4096 + (b1 - 0x80) * 64 + (b2 - 0x80) < 0xE000)) then
          Char.ofNat ((b - 0xE0) * 4096 + (b1 - 0x80) * 64 + (b2 - 0x80)) ::
            utf8DecodeReplaceAux fuel rest2
        else replChar :: utf8DecodeReplaceAux fuel rest
      | _ => replChar :: utf8DecodeReplaceAux fuel rest
    else if b < 0xF5 then
      match rest with
      | b1 :: b2 :: b3 :: rest3 =>
        if isCont b1 && isCont b2 && isCont b3 &&
           decide (0x10000 ≤
             (b - 0xF0) * 262144 + (b1 - 0x80) * 4096 + (b2 - 0x80) * 64 + (b3 - 0x80)) &&
           decide ((b - 0xF0) * 262144 + (b1 - 0x80) * 4096 + (b2 - 0x80) * 64 +
             (b3 - 0x80) < 0x110000) then
          Char.ofNat
            ((b - 0xF0) * 262144 + (b1 - 0x80) * 4096 + (b2 - 0x80) * 64 + (b3 - 0x80)) ::
            utf8DecodeReplaceAux fuel rest3
        else replChar :: utf8DecodeReplaceAux fuel rest
      | _ => replChar :: utf8DecodeReplaceAux fuel rest
    else replChar :: utf8DecodeReplaceAux fuel rest

def utf8DecodeReplace (l : List Nat) : List Char := utf8DecodeReplaceAux l.length l

/-- The value of one hexadecimal digit. -/
def hexVal (c : Char) : Option Nat :=
  if 48 ≤ c.toNat ∧ c.toNat ≤ 57 then some (c.toNat - 48)
  else if 97 ≤ c.toNat ∧ c.toNat ≤ 102 then some (c.toNat - 97 + 10)
  else if 65 ≤ c.toNat ∧ c.toNat ≤ 70 then some (c.toNat - 65 + 10)
  else none

/-- Worker for `unquote`: `pending` holds the bytes of the current `%XX` run;
fuelled by the input length so that the recursion is structural. -/
def unquoteAux : Nat → List Nat → List Char → List Char
  | 0, pending, rest => utf8DecodeReplace pending ++ rest
  | _ + 1, pending, [] => utf8DecodeReplace pending
  | fuel + 1, pending, '%' :: rest =>
    (match rest with
     | h1 :: h2 :: rest2 =>
       (match hexVal h1, hexVal h2 with
        | some v1, some v2 => unquoteAux fuel (pending ++ [v1 * 16 + v2]) rest2
        | _, _ => utf8DecodeReplace pending ++ '%' :: unquoteAux fuel [] rest)
     | _ => utf8DecodeReplace pending ++ '%' :: unquoteAux fuel [] rest)
  | fuel + 1, pending, c :: rest =>
    utf8DecodeReplace pending ++ c :: unquoteAux fuel [] rest

/-- Model of `urllib.parse.unquote`. -/
def unquote (s : List Char) : List Char := unquoteAux s.length [] s

/-! ### JSON, modelling `json.loads` and `JSON.stringify` payloads

Numbers are modelled as integers; fractional or exponent parts are
rejected (the bridge payloads are objects of strings, so no claim
depends on floats). -/

inductive Json where
  | null
  | bool (b : Bool)
  | int (n : Int)
  | str (s : List Char)
  | arr (elems : List Json)
  | obj (fields : List (List Char × Json))

def lcurly : Char := Char.ofNat 123

def rcurly : Char := Char.ofNat 125

/-- Skip JSON whitespace. -/
def skipWs : List Char → List Char
  | [] => []
  | c :: rest =>
    if c = ' ' ∨ c = '\t' ∨ c = '\n' ∨ c = '\r' then skipWs rest else c :: rest

/-- One-character escapes inside JSON strings. -/
def escMap (c : Char) : Option Char :=
  if c = '"' then some '"'
  else if c = '\\' then some '\\'
  else if c = '/' then some '/'
  else if c = 'b' then some (Char.ofNat 8)
  else if c = 'f' then some (Char.ofNat 12)
  else if c = 'n' then some '\n'
  else if c = 'r' then some '\r'
  else if c = 't' then some '\t'
  else none

/-- Parse the remainder of a JSON string after the opening quote. -/
def parseJStr : List Char → Option (List Char × List Char)
  | [] => none
  | '"' :: rest => some ([], rest)
  | '\\' :: rest =>
    (match rest with
     | 'u' :: h1 :: h2 :: h3 :: h4 :: rest2 =>
       (match hexVal h1, hexVal h2, hexVal h3, hexVal h4 with
        | some a, some b, some c, some d =>
          (parseJStr rest2).map
            (fun p => (Char.ofNat (((a * 16 + b) * 16 + c) * 16 + d) :: p.1, p.2))
        | _, _, _, _ => none)
     | e :: rest2 =>
       (match escMap e with
        | some c => (parseJStr rest2).map (fun p => (c :: p.1, p.2))
        | none => none)
     | [] => none)
  | c :: rest =>
    if c.toNat < 0x20 then none
    else (parseJStr rest).map (fun p => (c :: p.1, p.2))

/-- Longest digit run at the head. -/
def spanDigits : List Char → (List Char × List Char)
  | [] => ([], [])
  | c :: rest =>
    if 48 ≤ c.toNat ∧ c.toNat ≤ 57 then
      ((c :: (spanDigits rest).1), (spanDigits rest).2)
    else ([], c :: rest)

/-- Numeric value of a digit run. -/
def digitsValAux : Nat → List Char → Nat
  | acc, [] => acc
  | acc, c :: rest => digitsValAux (acc * 10 + (c.toNat - 48)) rest

/-- Parse a JSON number (integers only; a following `.`/`e`/`E` is
rejected). -/
def parseJsonNum (l : List Char) : Option (Json × List Char) :=
  match l with
  | '-' :: rest =>
    (match spanDigits rest with
     | ([], _) => none
     | (ds, rest2) =>
       (match rest2 with
        | '.' :: _ => none
        | 'e' :: _ => none
        | 'E' :: _ => none
        | _ => some (Json.int (-(digitsValAux 0 ds : Int)), rest2)))
  | _ =>
    (match spanDigits l with
     | ([], _) => none
     | (ds, rest2) =>
       (match rest2 with
        | '.' :: _ => none
        | 'e' :: _ => none
        | 'E' :: _ => none
        | _ => some (Json.int (digitsValAux 0 ds), rest2)))

mutual

/-- Recursive-descent JSON value parser, fuelled by input length. -/
def parseJson : Nat → List Char → Option (Json × List Char)
  | 0, _ => none
  | fuel + 1, l =>
    match skipWs l with
    | [] => none
    | 'n' :: 'u' :: 'l' :: 'l' :: r => some (Json.null, r)
    | 't' :: 'r' :: 'u' :: 'e' :: r => some (Json.bool true, r)
    | 'f' :: 'a' :: 'l' :: 's' :: 'e' :: r => some (Json.bool false, r)
    | '"' :: r => (parseJStr r).map (fun p => (Json.str p.1, p.2))
    | '[' :: r =>
      (match skipWs r with
       | ']' :: r2 => some (Json.arr [], r2)
       | _ => (parseJsonArr fuel r).map (fun p => (Json.arr p.1, p.2)))
    | c :: r =>
      if c = lcurly then
        (match skipWs r with
         | [] => none
         | c2 :: r2 =>
           if c2 = rcurly then some (Json.obj [], r2)
           else (parseJsonObj fuel (c2 :: r2)).map (fun p => (Json.obj p.1, p.2)))
      else parseJsonNum (c :: r)

/-- Comma-separated JSON values up to `]`. -/
def parseJsonArr : Nat → List Char → Option (List Json × List Char)
  | 0, _ => none
  | fuel + 1, l =>
    match parseJson fuel l with
    | some (v, r) =>
      (match skipWs r with
       | ',' :: r2 => (parseJsonArr fuel r2).map (fun p => (v :: p.1, p.2))
       | ']' :: r2 => some ([v], r2)
       | _ => none)
    | none => none

/-- Comma-separated `"key": value` pairs up to the closing brace. -/
def parseJsonObj : Nat → List Char → Option (List (List Char × Json) × List Char)
  | 0, _ => none
  | fuel + 1, l =>
    match skipWs l with
    | '"' :: r =>
      (match parseJStr r with
       | some (k, r1) =>
         (match skipWs r1 with
          | ':' :: r2 =>
            (match parseJson fuel r2 with
             | some (v, r3) =>
               (match skipWs r3 with
                | ',' :: r4 => (parseJsonObj fuel r4).map (fun p => ((k, v) :: p.1, p.2))
                | c :: r4 => if c = rcurly then some ([(k, v)], r4) else none
                | [] => none)
             | none => none)
          | _ => none)
       | none => none)
    | _ => none

end

/-- Model of `json.loads`: parse one value and demand only whitespace after it. -/
def jsonParse (s : List Char) : Option Json :=
  match parseJson (s.length + 1) s with
  | some (v, r) => if skipWs r = [] then some v else none
  | none => none

/-! ### The JavaScript bridge of `MathpasteView`

`_callback_dict` maps correlation ids to continuations and
`_callback_id_counter` is the `itertools.count()` id source.  Continuations
are kept abstract (type `α`); invoking one is modelled by returning it
together with its argument. -/

structure BridgeState (α : Type) where
  callback_dict : List (Int × α)
  callback_id_counter : Nat

/-- Model of `int(...)` on a decimal digit run with optional sign (`none` models
`ValueError`). -/
def digitsToNatStrict : Nat → List Char → Option Nat
  | acc, [] => some acc
  | acc, c :: rest =>
    if 48 ≤ c.toNat ∧ c.toNat ≤ 57 then
      digitsToNatStrict (acc * 10 + (c.toNat - 48)) rest
    else none

def parseIntPy : List Char → Option Int
  | [] => none
  | c :: rest =>
    if c = '-' then
      if rest = [] then none
      else (digitsToNatStrict 0 rest).map (fun n => -(n : Int))
    else if c = '+' then
      if rest = [] then none
      else (digitsToNatStrict 0 rest).map (fun n => (n : Int))
    else (digitsToNatStrict 0 (c :: rest)).map (fun n => (n : Int))

/-- Formatting `'%d' % n`: the decimal digits of `n` (fuelled, structural). -/
def natDigitsAux : Nat → Nat → List Char
  | 0, _ => []
  | fuel + 1, n =>
    if n < 10 then [Char.ofNat (48 + n)]
    else natDigitsAux fuel (n / 10) ++ [Char.ofNat (48 + n % 10)]

def natToString (n : Nat) : List Char := natDigitsAux (n + 1) n

/-- Python dict `.pop(key)`: the value and the dictionary without it
(`none` models `KeyError`). -/
def dictPop {α : Type} : List (Int × α) → Int → Option (α × List (Int × α))
  | [], _ => none
  | (k, v) :: rest, key =>
    if k = key then some (v, rest)
    else (dictPop rest key).map (fun p => (p.1, (k, v) :: p.2))

/-- Model of `MathpasteView.get_showing_math_and_image(callback)`: draw a fresh id
from the counter, register the callback under it, and submit the script
that makes the page navigate to
`mathpaste-gtk-data://<id>,encodeURIComponent(JSON.stringify(...))`.
Returns the id used and the new bridge state. -/
def get_showing_math_and_image {α : Type} (st : BridgeState α) (callback : α) :
    Nat × BridgeState α :=
  (st.callback_id_counter,
   ⟨st.callback_dict ++ [((st.callback_id_counter : Int), callback)],
    st.callback_id_counter + 1⟩)

/-- The URI the page builds in response to a pull with id `id`, where `enc`
is the `encodeURIComponent`-encoded JSON payload. -/
def mkDataUri (id : Nat) (enc : List Char) : List Char :=
  "mathpaste-gtk-data://".toList ++ natToString id ++ ',' :: enc

/-- The exceptions the interception handler can raise; an exception
propagates out of the handler, so `request.finish` is never called and the
request is not answered. -/
inductive BridgeError
  | assertionError
  | valueError
  | jsonDecodeError
  | keyError
deriving DecidableEq

/-- Model of `MathpasteView._handle_data_from_javascript(request)`: assert the
scheme, split the data part at the first comma into `id_` and
`encoded_uri_component` (`ValueError` when there is none), `unquote` and
`json.loads` the payload, `pop` the continuation registered under
`int(id_)` and invoke it with the parsed object, then finish the request
with an empty success body (the `[]` in the result).  On success the
result carries the new bridge state, the invoked continuation, its
argument, and the response body. -/
def handle_data_from_javascript {α : Type} (st : BridgeState α)
    (uri : List Char) :
    Except BridgeError (BridgeState α × α × Json × List Nat) :=
  if uri.take ("mathpaste-gtk-data://".toList).length = "mathpaste-gtk-data://".toList then
    match splitFirstComma (uri.drop ("mathpaste-gtk-data://".toList).length) with
    | none => Except.error BridgeError.valueError
    | some (idStr, encoded_uri_component) =>
      match jsonParse (unquote encoded_uri_component) with
      | none => Except.error BridgeError.jsonDecodeError
      | some python_object =>
        match parseIntPy idStr with
        | none => Except.error BridgeError.valueError
        | some id =>
          match dictPop st.callback_dict id with
          | none => Except.error BridgeError.keyError
          | some (callback, dict2) =>
            Except.ok (⟨dict2, st.callback_id_counter⟩, callback, python_object, [])
  else Except.error BridgeError.assertionError

/-! ### The push retry loop of `_run_javascript_until_succeeds`

`run_javascript(js, None, done_callback)` reports success or failure of
attempt `n` through `gtask.had_error()` — modelled by an oracle — after
some script-execution delay `cbDelay n`; on failure `done_callback`
schedules `GLib.timeout_add(200, retry, js)` and returns nothing, so no
failure ever reaches the caller. -/

/-- Does attempt `n` happen?  The initial submission always does; attempt
`n+1` happens exactly when attempt `n` happened and reported failure. -/
def retryAttemptHappens (oracle : Nat → Bool) : Nat → Bool
  | 0 => true
  | n + 1 => retryAttemptHappens oracle n && !(oracle n)

/-- When attempt `n` is submitted: attempt `n+1` is scheduled 200ms after
attempt `n`'s completion callback. -/
def attemptTime (cbDelay : Nat → Nat) : Nat → Nat
  | 0 => 0
  | n + 1 => attemptTime cbDelay n + cbDelay n + 200

/-- The `n`-th submission of `_run_javascript_until_succeeds js`: its time
and its payload, or `none` when no `n`-th attempt ever runs. -/
def submission {α : Type} (oracle : Nat → Bool) (cbDelay : Nat → Nat)
    (js : α) (n : Nat) : Option (Nat × α) :=
  if retryAttemptHappens oracle n then some (attemptTime cbDelay n, js) else none

/-! ### Supporting lemmas and the claims -/

theorem char_toNat_valid (c : Char) :
    c.toNat < 0xD800 ∨ (0xE000 ≤ c.toNat ∧ c.toNat < 0x110000) := by
  have h := c.valid
  simp only [UInt32.isValidChar, Nat.isValidChar] at h
  exact h

theorem char_toNat_lt (c : Char) : c.toNat < 0x110000 := by
  rcases char_toNat_valid c with h | h
  · omega
  · omega

theorem utf8Decode_encodeChar (c : Char) (bs : List Nat) :
    utf8DecodeSM none (utf8EncodeChar c ++ bs)
      = (utf8DecodeSM none bs).map (fun cs => c :: cs) := by
  have hval := char_toNat_valid c
  have hofNat : Char.ofNat c.toNat = c := Char.ofNat_toNat c
  by_cases h1 : c.toNat < 0x80
  · simp only [utf8EncodeChar, if_pos h1, List.cons_append, List.nil_append]
    rw [utf8DecodeSM, if_pos h1, hofNat]
  · by_cases h2 : c.toNat < 0x800
    · have hd1 : 2 ≤ c.toNat / 64 := by omega
      have hd2 : c.toNat / 64 ≤ 31 := by omega
      simp only [utf8EncodeChar, if_neg h1, if_pos h2, List.cons_append, List.nil_append]
      rw [utf8DecodeSM, if_neg (by omega), if_neg (by omega), if_pos (by omega)]
      rw [utf8DecodeSM,
        if_pos (by simp only [isCont, Bool.and_eq_true, decide_eq_true_eq]; omega),
        if_pos rfl]
      have hacc : (0xC0 + c.toNat / 64 - 0xC0) * 64 + (0x80 + c.toNat % 64 - 0x80)
          = c.toNat := by omega
      rw [hacc, if_neg (by omega), hofNat]
    · by_cases h3 : c.toNat < 0x10000
      · have hd1 : c.toNat / 4096 ≤ 15 := by omega
        simp only [utf8EncodeChar, if_neg h1, if_neg h2, if_pos h3, List.cons_append,
          List.nil_append]
        rw [utf8DecodeSM, if_neg (by omega), if_neg (by omega), if_neg (by omega),
          if_pos (by omega)]
        rw [utf8DecodeSM,
          if_pos (by simp only [isCont, Bool.and_eq_true, decide_eq_true_eq]; omega),
          if_neg (by omega)]
        have hacc : (0xE0 + c.toNat / 4096 - 0xE0) * 64 + (0x80 + c.toNat / 64 % 64 - 0x80)
            = c.toNat / 64 := by omega
        rw [hacc, show (2 : Nat) - 1 = 1 from rfl]
        rw [utf8DecodeSM,
          if_pos (by simp only [isCont, Bool.and_eq_true, decide_eq_true_eq]; omega),
          if_pos rfl]
        have hacc2 : c.toNat / 64 * 64 + (0x80 + c.toNat % 64 - 0x80) = c.toNat := by omega
        rw [hacc2, if_neg (by omega), hofNat]
      · have h4 : c.toNat < 0x110000 := char_toNat_lt c
        have hd1 : c.toNat / 262144 ≤ 4 := by omega
        simp only [utf8EncodeChar, if_neg h1, if_neg h2, if_neg h3, List.cons_append,
          List.nil_append]
        rw [utf8DecodeSM, if_neg (by omega), if_neg (by omega), if_neg (by omega),
          if_neg (by omega), if_pos (by omega)]
        rw [utf8DecodeSM,
          if_pos (by simp only [isCont, Bool.and_eq_true, decide_eq_true_eq]; omega),
          if_neg (by omega)]
        have hacc : (0xF0 + c.toNat / 262144 - 0xF0) * 64 +
            (0x80 + c.toNat / 4096 % 64 - 0x80) = c.toNat / 4096 := by omega
        rw [hacc, show (3 : Nat) - 1 = 2 from rfl]
        rw [utf8DecodeSM,
          if_pos (by simp only [isCont, Bool.and_eq_true, decide_eq_true_eq]; omega),
          if_neg (by omega)]
        have hacc2 : c.toNat / 4096 * 64 + (0x80 + c.toNat / 64 % 64 - 0x80)
            = c.toNat / 64 := by omega
        rw [hacc2, show (2 : Nat) - 1 = 1 from rfl]
        rw [utf8DecodeSM,
          if_pos (by simp only [isCont, Bool.and_eq_true, decide_eq_true_eq]; omega),
          if_pos rfl]
        have hacc3 : c.toNat / 64 * 64 + (0x80 + c.toNat % 64 - 0x80) = c.toNat := by omega
        rw [hacc3, if_neg (by omega), hofNat]

/-- Decoding inverts encoding: strict UTF-8 decode of `utf8Encode s` is `s`. -/
theorem utf8Decode_utf8Encode (s : List Char) :
    utf8Decode (utf8Encode s) = some s := by
  rw [utf8Decode]
  induction s with
  | nil => rfl
  | cons c cs ih =>
    rw [utf8Encode, utf8Decode_encodeChar, ih]
    rfl

theorem asciiDecode_asciiEncode (s : List Char) (bs : List Nat)
    (h : asciiEncode s = some bs) : asciiDecode bs = some s := by
  rw [asciiEncode] at h
  split at h
  · rename_i hall
    injection h with hbs
    rw [asciiDecode, ← hbs, if_pos]
    · rw [List.map_map]
      congr 1
      apply List.map_id''
      intro c
      exact Char.ofNat_toNat c
    · rw [List.all_eq_true] at hall ⊢
      intro b hb
      obtain ⟨c, hcs, rfl⟩ := List.mem_map.mp hb
      exact hall c hcs
  · cases h

theorem unlAux_of_no_cr (s : List Char) (h : '\r' ∉ s) :
    unlAux false s = s := by
  induction s with
  | nil => rfl
  | cons c rest ih =>
    have hc : c ≠ '\r' := fun hc => h (hc ▸ List.mem_cons_self c rest)
    rw [unlAux, if_neg hc, ih (fun hm => h (List.mem_cons_of_mem c hm))]

theorem universalNewlines_of_no_cr (s : List Char) (h : '\r' ∉ s) :
    universalNewlines s = s := unlAux_of_no_cr s h

theorem splitOnComma_ne_nil (s : List Char) : splitOnComma s ≠ [] := by
  induction s with
  | nil => simp [splitOnComma]
  | cons c rest ih =>
    rw [splitOnComma]
    split
    · simp
    · split
      · simp
      · simp

theorem splitOnComma_no_comma (s : List Char) (h : ',' ∉ s) :
    splitOnComma s = [s] := by
  induction s with
  | nil => rfl
  | cons c rest ih =>
    have hc : c ≠ ',' := fun hc => h (hc ▸ List.mem_cons_self c rest)
    rw [splitOnComma, if_neg hc, ih (fun hm => h (List.mem_cons_of_mem c hm))]

theorem splitOnComma_two (xs ys : List Char) (hx : ',' ∉ xs) (hy : ',' ∉ ys) :
    splitOnComma (xs ++ ',' :: ys) = [xs, ys] := by
  induction xs with
  | nil =>
    rw [List.nil_append, splitOnComma, if_pos rfl, splitOnComma_no_comma ys hy]
  | cons c xs ih =>
    have hc : c ≠ ',' := fun hc => hx (hc ▸ List.mem_cons_self c xs)
    rw [List.cons_append, splitOnComma, if_neg hc,
      ih (fun hm => hx (List.mem_cons_of_mem c hm))]

theorem joinComma_splitOnComma (s : List Char) :
    joinComma (splitOnComma s) = s := by
  induction s with
  | nil => rfl
  | cons c rest ih =>
    rw [splitOnComma]
    by_cases hc : c = ','
    · rw [if_pos hc]
      cases hrec : splitOnComma rest with
      | nil => exact absurd hrec (splitOnComma_ne_nil rest)
      | cons g gs =>
        rw [hrec] at ih
        rw [joinComma, List.nil_append, ih, hc]
    · rw [if_neg hc]
      cases hrec : splitOnComma rest with
      | nil => exact absurd hrec (splitOnComma_ne_nil rest)
      | cons g gs =>
        rw [hrec] at ih
        dsimp only
        cases gs with
        | nil =>
          rw [joinComma] at ih ⊢
          rw [ih]
        | cons g2 gs2 =>
          rw [joinComma] at ih ⊢
          rw [List.cons_append, ih]

theorem splitOnComma_eq_two (s a b : List Char) (h : splitOnComma s = [a, b]) :
    s = a ++ ',' :: b := by
  have hj := joinComma_splitOnComma s
  rw [h] at hj
  rw [← hj]
  rfl

theorem b64charVal_comma : b64charVal ',' = none := by decide

theorem b64_mem_char :
    ∀ (s : List Char) (bs : List Nat), b64decode s = some bs →
      ∀ c ∈ s, c = '=' ∨ (b64charVal c).isSome
  | [], _, _ => by simp
  | c1 :: c2 :: c3 :: c4 :: rest, bs, h => by
    rw [b64decode] at h
    intro c hc
    split at h
    · rename_i v1 v2 hv1 hv2
      split at h
      · rename_i hc3
        split at h
        · rename_i hc4
          simp only [List.mem_cons] at hc
          rcases hc with rfl | rfl | rfl | rfl | hc
          · right; rw [hv1]; rfl
          · right; rw [hv2]; rfl
          · left; exact hc3
          · left; exact hc4.1
          · rw [hc4.2] at hc; cases hc
        · cases h
      · rename_i hc3
        split at h
        · rename_i v3 hv3
          split at h
          · rename_i hc4
            split at h
            · rename_i hrest
              simp only [List.mem_cons] at hc
              rcases hc with rfl | rfl | rfl | rfl | hc
              · right; rw [hv1]; rfl
              · right; rw [hv2]; rfl
              · right; rw [hv3]; rfl
              · left; exact hc4
              · rw [hrest] at hc; cases hc
            · cases h
          · rename_i hc4
            split at h
            · rename_i v4 hv4
              cases hdec : b64decode rest with
              | none => rw [hdec] at h; cases h
              | some bs' =>
                simp only [List.mem_cons] at hc
                rcases hc with rfl | rfl | rfl | rfl | hc
                · right; rw [hv1]; rfl
                · right; rw [hv2]; rfl
                · right; rw [hv3]; rfl
                · right; rw [hv4]; rfl
                · exact b64_mem_char rest bs' hdec c hc
            · cases h
        · cases h
    · cases h
  | [c1], bs, h => by simp [b64decode] at h
  | [c1, c2], bs, h => by simp [b64decode] at h
  | [c1, c2, c3], bs, h => by simp [b64decode] at h

theorem b64decode_no_comma (s : List Char) (bs : List Nat)
    (h : b64decode s = some bs) : ',' ∉ s := by
  intro hm
  rcases b64_mem_char s bs h ',' hm with he | hs
  · cases he
  · rw [b64charVal_comma] at hs; cases hs

theorem lenDecode_lenEncodeAux :
    ∀ fuel n l, n ≤ fuel → lenDecode (lenEncodeAux fuel n ++ l) = some (n, l) := by
  intro fuel
  induction fuel with
  | zero =>
    intro n l h
    have hn : n = 0 := by omega
    subst hn
    rw [lenEncodeAux, List.cons_append, List.nil_append, lenDecode, if_pos rfl]
  | succ f ih =>
    intro n l h
    cases n with
    | zero =>
      rw [lenEncodeAux, List.cons_append, List.nil_append, lenDecode, if_pos rfl]
    | succ m =>
      have hm : (m + 1) % 255 < 255 := Nat.mod_lt _ (by omega)
      have hdiv : (m + 1) / 255 ≤ f := by
        have := Nat.div_lt_self (Nat.succ_pos m) (show 1 < 255 by omega)
        omega
      rw [lenEncodeAux, List.cons_append, lenDecode, if_neg (by omega),
        if_pos (by omega), ih ((m + 1) / 255) l hdiv]
      dsimp only
      have : (m + 1) / 255 * 255 + (m + 1) % 255 = m + 1 := by omega
      rw [this]

theorem lenDecode_lenEncode (n : Nat) (l : List Nat) :
    lenDecode (lenEncode n ++ l) = some (n, l) :=
  lenDecode_lenEncodeAux n n l (Nat.le_refl n)

theorem zipParseEntry_serialize (e : ZipEntry) (l : List Nat) :
    zipParseEntry (zipSerializeEntry e ++ l) = some (e, l) := by
  rw [zipSerializeEntry, zipParseEntry]
  simp only [List.append_assoc]
  rw [show (4 : Nat) = zipMagic.length from rfl, List.take_left, List.drop_left,
    if_pos rfl, lenDecode_lenEncode]
  dsimp only
  rw [if_pos (by simp only [List.length_append]; omega)]
  rw [List.take_left, List.drop_left, utf8Decode_utf8Encode, lenDecode_lenEncode]
  dsimp only
  rw [if_pos (by simp only [List.length_append]; omega)]
  rw [List.take_left, List.drop_left]

theorem zipSerializeEntry_ne_nil (e : ZipEntry) : zipSerializeEntry e ≠ [] := by
  rw [zipSerializeEntry]
  simp [zipMagic]

theorem zipSerialize_length_ge (es : List ZipEntry) :
    es.length ≤ (zipSerialize es).length := by
  induction es with
  | nil => simp [zipSerialize]
  | cons e es ih =>
    rw [zipSerialize, List.length_append, List.length_cons]
    have : 1 ≤ (zipSerializeEntry e).length := by
      rw [zipSerializeEntry]
      simp [zipMagic]
    omega

theorem zipParseAux_cons (fuel : Nat) (l : List Nat) (hl : l ≠ []) :
    zipParseAux (fuel + 1) l =
      match zipParseEntry l with
      | some (e, r) => (zipParseAux fuel r).map (fun es => e :: es)
      | none => none := by
  cases l with
  | nil => exact absurd rfl hl
  | cons b t => rw [zipParseAux]

theorem zipParseAux_serialize :
    ∀ fuel es, List.length es ≤ fuel → zipParseAux fuel (zipSerialize es) = some es := by
  intro fuel
  induction fuel with
  | zero =>
    intro es h
    have : es = [] := by
      cases es with
      | nil => rfl
      | cons e es => simp at h
    subst this
    rw [zipSerialize, zipParseAux]
  | succ f ih =>
    intro es h
    cases es with
    | nil => rw [zipSerialize, zipParseAux]
    | cons e es =>
      rw [zipSerialize,
        zipParseAux_cons f _ (fun hnil =>
          zipSerializeEntry_ne_nil e (List.append_eq_nil.mp hnil).1),
        zipParseEntry_serialize]
      dsimp only
      rw [ih es (by simp only [List.length_cons] at h; omega)]
      rfl

theorem zipParse_zipSerialize (es : List ZipEntry) :
    zipParse (zipSerialize es) = some es := by
  rw [zipParse]
  exact zipParseAux_serialize (zipSerialize es).length es
    (Nat.le_trans (zipSerialize_length_ge es) (Nat.le_refl _))

theorem zipSerialize_take4 (e : ZipEntry) (es : List ZipEntry) :
    (zipSerialize (e :: es)).take 4 = zipMagic := by
  rw [zipSerialize, zipSerializeEntry]
  simp only [List.append_assoc]
  rw [show (4 : Nat) = zipMagic.length from rfl, List.take_left]

theorem zipOpen_eq_none_iff (es : List ZipEntry) (n : List Char) :
    zipOpen es n = none ↔ n ∉ namelist es := by
  induction es with
  | nil => simp [zipOpen, namelist]
  | cons e es ih =>
    rw [zipOpen, namelist, List.map_cons, List.mem_cons]
    by_cases he : e.name = n
    · rw [if_pos he]
      simp [he]
    · rw [if_neg he]
      rw [namelist] at ih
      rw [ih]
      have hne : ¬ n = e.name := fun hh => he hh.symm
      simp [hne]

/-! ### File-codec claims -/

/-- C2 (counterexample): the claimed plain-text round trip fails for the
mathText `"PK\x03\x04"`: its UTF-8 bytes are exactly the zip signature, so
reading the written file goes down the zip branch and raises `BadZipFile`
instead of returning `(PlainText, mathText, "")`. -/
theorem C2_plain_roundtrip_counterexample :
    write_mathpaste_file FileType.TEXT ['P', 'K', Char.ofNat 3, Char.ofNat 4] [] []
      = Except.ok [0x50, 0x4B, 0x03, 0x04] ∧
    read_mathpaste_file (some [0x50, 0x4B, 0x03, 0x04])
      = Except.error ReadError.badZipFile ∧
    read_mathpaste_file (some [0x50, 0x4B, 0x03, 0x04])
      ≠ Except.ok (FileType.TEXT, ['P', 'K', Char.ofNat 3, Char.ofNat 4], []) := by
  refine ⟨by decide, by decide, by decide⟩

/-- C2 (amended): for every mathText whose UTF-8 encoding does not begin
with the zip signature `50 4B 03 04` and which contains no carriage return
(text-mode reading translates `"\r\n"` and `"\r"` to `"\n"`), writing with
format PlainText and reading the file back yields
`(PlainText, mathText, "")`. -/
theorem C2_plain_roundtrip (math : List Char)
    (hmagic : (utf8Encode math).take 4 ≠ zipMagic)
    (hcr : '\r' ∉ math) :
    write_mathpaste_file FileType.TEXT math [] [] = Except.ok (utf8Encode math) ∧
    read_mathpaste_file (some (utf8Encode math))
      = Except.ok (FileType.TEXT, math, []) := by
  refine ⟨rfl, ?_⟩
  rw [read_mathpaste_file, if_neg hmagic, utf8Decode_utf8Encode]
  dsimp only
  rw [universalNewlines_of_no_cr math hcr]

/-- Witness for C2 (amended) at mathText `"hi"`. -/
theorem C2_plain_roundtrip_witness :
    write_mathpaste_file FileType.TEXT ['h', 'i'] [] []
      = Except.ok (utf8Encode ['h', 'i']) ∧
    read_mathpaste_file (some (utf8Encode ['h', 'i']))
      = Except.ok (FileType.TEXT, ['h', 'i'], []) :=
  C2_plain_roundtrip ['h', 'i'] (by decide) (by decide)

/-- C3: for every mathText, non-empty ASCII drawingVectorData and raster
data-url `"data:image/png;base64," ++ b64` with `b64` valid base64, a
ZipContainer write followed by a read yields
`(ZipContainer, mathText, drawingVectorData)`. -/
theorem C3_zip_roundtrip (math image_string b64 : List Char) (png : List Nat)
    (himg : image_string ≠ [])
    (hascii : ∀ c ∈ image_string, c.toNat < 0x80)
    (hb64 : b64decode b64 = some png) :
    ∃ file,
      write_mathpaste_file FileType.ZIP math image_string
        (pngDataUrlKind ++ ',' :: b64) = Except.ok file ∧
      read_mathpaste_file (some file)
        = Except.ok (FileType.ZIP, math, image_string) := by
  have henc : asciiEncode image_string = some (image_string.map Char.toNat) := by
    rw [asciiEncode, if_pos]
    rw [List.all_eq_true]
    intro c hc
    simpa using hascii c hc
  have hsplit : splitOnComma (pngDataUrlKind ++ ',' :: b64)
      = [pngDataUrlKind, b64] :=
    splitOnComma_two _ _ (by decide) (b64decode_no_comma b64 png hb64)
  refine ⟨zipSerialize
    [⟨mathTxtName, utf8Encode math⟩,
     ⟨drawingDataName, image_string.map Char.toNat⟩,
     ⟨drawingPngName, png⟩], ?_, ?_⟩
  · rw [write_mathpaste_file]
    rw [if_neg himg, henc]
    dsimp only
    rw [hsplit]
    dsimp only
    rw [if_pos rfl, hb64]
  · rw [read_mathpaste_file]
    rw [if_pos (zipSerialize_take4 _ _), zipParse_zipSerialize]
    dsimp only
    rw [zipOpen, if_pos rfl]
    dsimp only
    rw [utf8Decode_utf8Encode]
    dsimp only
    rw [zipOpen]
    dsimp only
    rw [if_neg (by decide), zipOpen, if_pos rfl]
    dsimp only
    rw [asciiDecode_asciiEncode image_string _ henc]

/-- Witness for C3 at mathText `""`, drawingVectorData `"a"`, empty base64
payload. -/
theorem C3_zip_roundtrip_witness :
    ∃ file,
      write_mathpaste_file FileType.ZIP [] ['a']
        (pngDataUrlKind ++ ',' :: []) = Except.ok file ∧
      read_mathpaste_file (some file)
        = Except.ok (FileType.ZIP, [], ['a']) :=
  C3_zip_roundtrip [] ['a'] [] [] (by decide) (by decide) (by decide)

/-- C4: a structurally valid zip archive (a serialized non-empty entry
list, so its bytes begin with `50 4B 03 04`) with no `math.txt` entry
makes `read_mathpaste_file` raise `NotAMathPasteGtkZipFileError` — and in
particular not `BadZipFile`, as the equality shows. -/
theorem C4_zip_without_mathtxt (entries : List ZipEntry)
    (hne : entries ≠ [])
    (hmem : mathTxtName ∉ namelist entries) :
    (zipSerialize entries).take 4 = zipMagic ∧
    read_mathpaste_file (some (zipSerialize entries))
      = Except.error ReadError.notAMathPasteGtkZipFileError := by
  have htake : (zipSerialize entries).take 4 = zipMagic := by
    cases entries with
    | nil => exact absurd rfl hne
    | cons e es => exact zipSerialize_take4 e es
  refine ⟨htake, ?_⟩
  rw [read_mathpaste_file, if_pos htake, zipParse_zipSerialize]
  dsimp only
  rw [(zipOpen_eq_none_iff entries mathTxtName).mpr hmem]

/-- Witness for C4 at the one-entry archive `[("a", [])]`. -/
theorem C4_zip_without_mathtxt_witness :
    (zipSerialize [⟨['a'], []⟩]).take 4 = zipMagic ∧
    read_mathpaste_file (some (zipSerialize [⟨['a'], []⟩]))
      = Except.error ReadError.notAMathPasteGtkZipFileError :=
  C4_zip_without_mathtxt [⟨['a'], []⟩] (by decide) (by decide)

/-- C5: saving with filetype TEXT while the drawing string is non-empty
writes exactly the UTF-8 bytes of the math (no drawing bytes anywhere:
that one file is everything written), shows the "drawing not saved"
warning dialog exactly once, and completes normally. -/
theorem C5_text_save_drops_drawing (math imageString imageDataUrl : List Char)
    (h : imageString ≠ []) :
    save_callback_for_view FileType.TEXT math imageString imageDataUrl
      = ⟨some (utf8Encode math), 0, 1, true, true⟩ := by
  rw [save_callback_for_view]
  dsimp only [write_mathpaste_file]
  rw [if_pos ⟨rfl, h⟩]

/-- Witness for C5 at math `"x"`, drawing string `"a"`. -/
theorem C5_text_save_drops_drawing_witness :
    save_callback_for_view FileType.TEXT ['x'] ['a'] []
      = ⟨some (utf8Encode ['x']), 0, 1, true, true⟩ :=
  C5_text_save_drops_drawing ['x'] ['a'] [] (by decide)

/-- C6: every successful ZipContainer write produces an archive that
contains `math.txt` with the UTF-8 bytes of the math; with an empty
drawing string the archive is exactly that single entry, and with a
non-empty drawing string it is exactly `math.txt`, `drawing-data.txt`
(the ASCII bytes of the drawing string) and `drawing.png` (the base64
decode of what follows the mandatory `data:image/png;base64,` head of the
raster data-url). -/
theorem C6_zip_write_entries (math image_string image_dataurl : List Char)
    (file : List Nat)
    (h : write_mathpaste_file FileType.ZIP math image_string image_dataurl
        = Except.ok file) :
    ∃ entries, file = zipSerialize entries ∧
      zipOpen entries mathTxtName = some (utf8Encode math) ∧
      (image_string = [] → entries = [⟨mathTxtName, utf8Encode math⟩]) ∧
      (image_string ≠ [] → ∃ imgBytes png b64,
        asciiEncode image_string = some imgBytes ∧
        image_dataurl = pngDataUrlKind ++ ',' :: b64 ∧
        b64decode b64 = some png ∧
        entries =
          [⟨mathTxtName, utf8Encode math⟩,
           ⟨drawingDataName, imgBytes⟩,
           ⟨drawingPngName, png⟩]) := by
  rw [write_mathpaste_file] at h
  by_cases himg : image_string = []
  · rw [if_pos himg] at h
    injection h with h
    refine ⟨[⟨mathTxtName, utf8Encode math⟩], h.symm, ?_, fun _ => rfl,
      fun hne => absurd himg hne⟩
    rw [zipOpen, if_pos rfl]
  · rw [if_neg himg] at h
    cases henc : asciiEncode image_string with
    | none => rw [henc] at h; cases h
    | some imgBytes =>
      rw [henc] at h
      dsimp only at h
      cases hsplit : splitOnComma image_dataurl with
      | nil => rw [hsplit] at h; cases h
      | cons g1 gs =>
        rw [hsplit] at h
        cases gs with
        | nil => dsimp only at h; cases h
        | cons g2 gs2 =>
          cases gs2 with
          | cons g3 gs3 => dsimp only at h; cases h
          | nil =>
            dsimp only at h
            by_cases hkind : g1 = pngDataUrlKind
            · rw [if_pos hkind] at h
              cases hb64 : b64decode g2 with
              | none => rw [hb64] at h; cases h
              | some png =>
                rw [hb64] at h
                injection h with h
                refine ⟨_, h.symm, ?_, fun heq => absurd heq himg, fun _ =>
                  ⟨imgBytes, png, g2, rfl, ?_, hb64, rfl⟩⟩
                · rw [zipOpen, if_pos rfl]
                · rw [← hkind]
                  exact splitOnComma_eq_two image_dataurl g1 g2 hsplit
            · rw [if_neg hkind] at h
              cases h

/-- Witness for C6 at math `""`, empty drawing string. -/
theorem C6_zip_write_entries_witness :
    ∃ entries, zipSerialize [(⟨mathTxtName, []⟩ : ZipEntry)] = zipSerialize entries ∧
      zipOpen entries mathTxtName = some (utf8Encode []) ∧
      (([] : List Char) = [] → entries = [⟨mathTxtName, utf8Encode []⟩]) ∧
      (([] : List Char) ≠ [] → ∃ imgBytes png b64,
        asciiEncode [] = some imgBytes ∧
        ([] : List Char) = pngDataUrlKind ++ ',' :: b64 ∧
        b64decode b64 = some png ∧
        entries =
          [⟨mathTxtName, utf8Encode []⟩,
           ⟨drawingDataName, imgBytes⟩,
           ⟨drawingPngName, png⟩]) :=
  C6_zip_write_entries [] [] [] (zipSerialize [⟨mathTxtName, []⟩]) (by decide)

/-- C9: whenever reading the file raises any of the handled errors,
`open_file` leaves the window state exactly as it was, pushes nothing to
the embedded document, and shows one error dialog. -/
theorem C9_open_error_preserves_state (st : WindowState) (path : List Char)
    (contents : Option (List Nat)) (e : ReadError)
    (h : read_mathpaste_file contents = Except.error e) :
    open_file st path contents = ⟨st, none, 1⟩ := by
  rw [open_file, h]

/-- Witness for C9 at an unreadable file (`OSError`). -/
theorem C9_open_error_preserves_state_witness :
    open_file ⟨none, none, true⟩ [] none = ⟨⟨none, none, true⟩, none, 1⟩ :=
  C9_open_error_preserves_state ⟨none, none, true⟩ [] none ReadError.osError
    (by decide)

/-- C10: a ZipContainer write with an empty drawing string never examines
the raster data-url: it succeeds with the single-entry archive for every
url, and its result is independent of the url. -/
theorem C10_empty_drawing_ignores_url (math image_dataurl image_dataurl' : List Char) :
    write_mathpaste_file FileType.ZIP math [] image_dataurl
      = Except.ok (zipSerialize [⟨mathTxtName, utf8Encode math⟩]) ∧
    write_mathpaste_file FileType.ZIP math [] image_dataurl
      = write_mathpaste_file FileType.ZIP math [] image_dataurl' := by
  constructor
  · rw [write_mathpaste_file]
    rw [if_pos rfl]
  · rfl

/-! ### Bridge lemmas -/

theorem char_toNat_ofNat_lt (n : Nat) (h : n < 0xD800) :
    (Char.ofNat n).toNat = n := by
  rw [Char.ofNat]
  rw [dif_pos (Or.inl h)]
  rfl

theorem natDigitsAux_digits :
    ∀ fuel n c, c ∈ natDigitsAux fuel n → 48 ≤ c.toNat ∧ c.toNat ≤ 57 := by
  intro fuel
  induction fuel with
  | zero =>
    intro n c hc
    simp [natDigitsAux] at hc
  | succ f ih =>
    intro n c hc
    rw [natDigitsAux] at hc
    split at hc
    · rename_i hn
      simp only [List.mem_singleton] at hc
      subst hc
      have hv : (Char.ofNat (48 + n)).toNat = 48 + n :=
        char_toNat_ofNat_lt _ (by omega)
      omega
    · rename_i hn
      rw [List.mem_append] at hc
      rcases hc with hc | hc
      · exact ih _ _ hc
      · simp only [List.mem_singleton] at hc
        subst hc
        have h10 : n % 10 < 10 := Nat.mod_lt _ (by omega)
        have hv : (Char.ofNat (48 + n % 10)).toNat = 48 + n % 10 :=
          char_toNat_ofNat_lt _ (by omega)
        omega

theorem natDigitsAux_ne_nil (fuel n : Nat) : natDigitsAux (fuel + 1) n ≠ [] := by
  rw [natDigitsAux]
  split
  · simp
  · intro h
    exact absurd (List.append_eq_nil.mp h).2 (by simp)

theorem digitsToNatStrict_append (acc : Nat) (xs ys : List Char) :
    digitsToNatStrict acc (xs ++ ys)
      = match digitsToNatStrict acc xs with
        | some m => digitsToNatStrict m ys
        | none => none := by
  induction xs generalizing acc with
  | nil => rfl
  | cons c xs ih =>
    rw [List.cons_append, digitsToNatStrict]
    by_cases hc : 48 ≤ c.toNat ∧ c.toNat ≤ 57
    · rw [if_pos hc, ih]
      rw [digitsToNatStrict, if_pos hc]
    · rw [if_neg hc]
      rw [digitsToNatStrict, if_neg hc]

theorem natDigitsAux_spec :
    ∀ fuel n, n ≤ fuel → ∀ acc,
      digitsToNatStrict acc (natDigitsAux fuel n)
        = some (acc * 10 ^ (natDigitsAux fuel n).length + n) := by
  intro fuel
  induction fuel with
  | zero =>
    intro n h acc
    have hn : n = 0 := by omega
    subst hn
    rw [natDigitsAux, digitsToNatStrict]
    simp
  | succ f ih =>
    intro n h acc
    rw [natDigitsAux]
    by_cases hn : n < 10
    · rw [if_pos hn]
      have hv : (Char.ofNat (48 + n)).toNat = 48 + n :=
        char_toNat_ofNat_lt _ (by omega)
      rw [digitsToNatStrict, if_pos (by rw [hv]; omega)]
      rw [digitsToNatStrict]
      congr 1
      simp only [hv, List.length_singleton, pow_one]
      omega
    · rw [if_neg hn]
      rw [digitsToNatStrict_append, ih (n / 10) (by omega) acc]
      dsimp only
      have hv : (Char.ofNat (48 + n % 10)).toNat = 48 + n % 10 :=
        char_toNat_ofNat_lt _ (by omega)
      rw [digitsToNatStrict, if_pos (by rw [hv]; constructor <;> omega)]
      rw [digitsToNatStrict]
      congr 1
      rw [List.length_append, List.length_singleton, hv]
      have hsub : 48 + n % 10 - 48 = n % 10 := by omega
      rw [hsub]
      have hdm := Nat.div_add_mod n 10
      have hpow : (10 : Nat) ^ ((natDigitsAux f (n / 10)).length + 1)
          = 10 ^ (natDigitsAux f (n / 10)).length * 10 := pow_succ 10 _
      rw [hpow]
      calc (acc * 10 ^ (natDigitsAux f (n / 10)).length + n / 10) * 10 + n % 10
          = acc * (10 ^ (natDigitsAux f (n / 10)).length * 10)
            + (10 * (n / 10) + n % 10) := by ring
        _ = acc * (10 ^ (natDigitsAux f (n / 10)).length * 10) + n := by rw [hdm]

theorem digitsToNatStrict_natToString (n : Nat) :
    digitsToNatStrict 0 (natToString n) = some n := by
  rw [natToString, natDigitsAux_spec (n + 1) n (by omega) 0]
  simp

theorem parseIntPy_natToString (n : Nat) :
    parseIntPy (natToString n) = some (n : Int) := by
  cases hns : natToString n with
  | nil => exact absurd hns (natDigitsAux_ne_nil n n)
  | cons c cs =>
    have hmem : c ∈ natToString n := by
      rw [hns]; exact List.mem_cons_self c cs
    have hcdig : 48 ≤ c.toNat ∧ c.toNat ≤ 57 :=
      natDigitsAux_digits (n + 1) n c hmem
    have hcm : ¬ c = '-' := fun hc => by
      rw [hc] at hcdig
      exact absurd hcdig (by decide)
    have hcp : ¬ c = '+' := fun hc => by
      rw [hc] at hcdig
      exact absurd hcdig (by decide)
    rw [parseIntPy, if_neg hcm, if_neg hcp, ← hns, digitsToNatStrict_natToString]
    rfl

theorem natToString_no_comma (n : Nat) : ',' ∉ natToString n := by
  intro hm
  have := natDigitsAux_digits (n + 1) n ',' hm
  exact absurd this (by decide)

theorem splitFirstComma_append (xs ys : List Char) (hx : ',' ∉ xs) :
    splitFirstComma (xs ++ ',' :: ys) = some (xs, ys) := by
  induction xs with
  | nil => rw [List.nil_append, splitFirstComma, if_pos rfl]
  | cons c xs ih =>
    have hc : ¬ c = ',' := fun hc => hx (hc ▸ List.mem_cons_self c xs)
    rw [List.cons_append, splitFirstComma, if_neg hc,
      ih (fun hm => hx (List.mem_cons_of_mem c hm))]
    rfl

theorem dictPop_append {α : Type} (d : List (Int × α)) (key : Int) (v : α)
    (tail : List (Int × α)) (hfresh : ∀ p ∈ d, p.1 ≠ key) :
    dictPop (d ++ (key, v) :: tail) key = some (v, d ++ tail) := by
  induction d with
  | nil => rw [List.nil_append, dictPop, if_pos rfl]; rfl
  | cons p d ih =>
    cases p with
    | mk k pv =>
      have hk : ¬ k = key := hfresh (k, pv) (List.mem_cons_self _ _)
      rw [List.cons_append, dictPop, if_neg hk,
        ih (fun q hq => hfresh q (List.mem_cons_of_mem _ hq))]
      rfl

/-- Evaluating the interception handler on the URI the page builds for a
pull with id `id`: the payload is decoded, then the continuation under the
id is popped and handed the payload, and the request is finished with an
empty body. -/
theorem handle_mkDataUri {α : Type} (st : BridgeState α) (id : Nat)
    (enc : List Char) :
    handle_data_from_javascript st (mkDataUri id enc)
      = match jsonParse (unquote enc) with
        | none => Except.error BridgeError.jsonDecodeError
        | some payload =>
          match dictPop st.callback_dict (id : Int) with
          | none => Except.error BridgeError.keyError
          | some (cb, d2) =>
            Except.ok (⟨d2, st.callback_id_counter⟩, cb, payload, []) := by
  rw [handle_data_from_javascript, mkDataUri, List.append_assoc]
  rw [if_pos (List.take_left ("mathpaste-gtk-data://".toList)
    (natToString id ++ ',' :: enc))]
  rw [List.drop_left ("mathpaste-gtk-data://".toList)
    (natToString id ++ ',' :: enc)]
  rw [splitFirstComma_append _ _ (natToString_no_comma id)]
  dsimp only
  rw [parseIntPy_natToString]

/-! ### Bridge and retry claims -/

/-- C1: two pulls issued before either resolves receive distinct
correlation ids, and whichever of the two ids a response arrives for —
the first pull's, or (out of order) the second pull's while the first is
still pending — the handler hands exactly that id's continuation that
response's decoded payload (invoked exactly once: the registration is
popped before the call), removes that registration, and leaves the other
pull's registration in place, never invoking the other continuation. -/
theorem C1_pull_correlation {α : Type} (st0 : BridgeState α) (cb1 cb2 : α)
    (hfresh : ∀ p ∈ st0.callback_dict, p.1 < (st0.callback_id_counter : Int))
    (enc enc' : List Char) (payload payload' : Json)
    (hdec : jsonParse (unquote enc) = some payload)
    (hdec' : jsonParse (unquote enc') = some payload') :
    (get_showing_math_and_image st0 cb1).1
      ≠ (get_showing_math_and_image (get_showing_math_and_image st0 cb1).2 cb2).1 ∧
    handle_data_from_javascript
        (get_showing_math_and_image (get_showing_math_and_image st0 cb1).2 cb2).2
        (mkDataUri (get_showing_math_and_image st0 cb1).1 enc)
      = Except.ok
          (⟨st0.callback_dict
              ++ [(((st0.callback_id_counter + 1 : Nat) : Int), cb2)],
            st0.callback_id_counter + 2⟩,
           cb1, payload, []) ∧
    handle_data_from_javascript
        (get_showing_math_and_image (get_showing_math_and_image st0 cb1).2 cb2).2
        (mkDataUri
          (get_showing_math_and_image (get_showing_math_and_image st0 cb1).2 cb2).1
          enc')
      = Except.ok
          (⟨st0.callback_dict ++ [(((st0.callback_id_counter : Nat) : Int), cb1)],
            st0.callback_id_counter + 2⟩,
           cb2, payload', []) := by
  refine ⟨?_, ?_, ?_⟩
  · simp only [get_showing_math_and_image]
    omega
  · simp only [get_showing_math_and_image]
    rw [handle_mkDataUri, hdec]
    dsimp only
    rw [List.append_assoc, List.cons_append, List.nil_append]
    rw [dictPop_append _ _ _ _ (fun p hp => ne_of_lt (hfresh p hp))]
  · simp only [get_showing_math_and_image]
    rw [handle_mkDataUri, hdec']
    dsimp only
    have hfr : ∀ p ∈ st0.callback_dict
        ++ [(((st0.callback_id_counter : Nat) : Int), cb1)],
        p.1 ≠ ((st0.callback_id_counter + 1 : Nat) : Int) := by
      intro p hp
      rcases List.mem_append.mp hp with h | h
      · have := hfresh p h
        omega
      · have hpe : p = (((st0.callback_id_counter : Nat) : Int), cb1) := by
          simpa using h
        rw [hpe]
        dsimp only
        omega
    rw [dictPop_append _ _ _ _ hfr, List.append_nil]

/-- Witness for C1: empty dictionary, continuations `10` and `20`; a
response for the first id carries `null`, one for the second id carries
`true`. -/
theorem C1_pull_correlation_witness :
    (get_showing_math_and_image (⟨[], 0⟩ : BridgeState Nat) 10).1
      ≠ (get_showing_math_and_image
          (get_showing_math_and_image (⟨[], 0⟩ : BridgeState Nat) 10).2 20).1 ∧
    handle_data_from_javascript
        (get_showing_math_and_image
          (get_showing_math_and_image (⟨[], 0⟩ : BridgeState Nat) 10).2 20).2
        (mkDataUri (get_showing_math_and_image (⟨[], 0⟩ : BridgeState Nat) 10).1
          "null".toList)
      = Except.ok (⟨[((1 : Nat), 20)], 2⟩, 10, Json.null, []) ∧
    handle_data_from_javascript
        (get_showing_math_and_image
          (get_showing_math_and_image (⟨[], 0⟩ : BridgeState Nat) 10).2 20).2
        (mkDataUri
          (get_showing_math_and_image
            (get_showing_math_and_image (⟨[], 0⟩ : BridgeState Nat) 10).2 20).1
          "true".toList)
      = Except.ok (⟨[((0 : Nat), 10)], 2⟩, 20, Json.bool true, []) :=
  C1_pull_correlation ⟨[], 0⟩ 10 20
    (fun p hp => absurd hp (List.not_mem_nil p)) "null".toList "true".toList
    Json.null (Json.bool true) rfl rfl

/-- C8 (counterexample): the handler does not always answer the request —
for the payload `"0,null"` with no registered callback under id 0,
`dict.pop` raises `KeyError`, the exception propagates, and
`request.finish` (the empty success body) is never reached.  The same
happens when the encoded portion is not valid JSON (`json.loads` raises
before `finish`). -/
theorem C8_always_responds_counterexample :
    handle_data_from_javascript (⟨[], 0⟩ : BridgeState Nat)
        ("mathpaste-gtk-data://0,null".toList)
      = Except.error BridgeError.keyError := by
  rfl

/-- C8 (amended): for every delivered payload that carries a registered
correlation id and a decodable JSON body, the handler pops and invokes
that continuation and answers the request with an empty success body. -/
theorem C8_responds_on_wellformed {α : Type} (st : BridgeState α) (id : Nat)
    (enc : List Char) (payload : Json) (cb : α) (d2 : List (Int × α))
    (hdec : jsonParse (unquote enc) = some payload)
    (hpop : dictPop st.callback_dict (id : Int) = some (cb, d2)) :
    handle_data_from_javascript st (mkDataUri id enc)
      = Except.ok (⟨d2, st.callback_id_counter⟩, cb, payload, []) := by
  rw [handle_mkDataUri, hdec]
  dsimp only
  rw [hpop]

/-- Witness for C8 (amended): one registered callback, payload `null`. -/
theorem C8_responds_on_wellformed_witness :
    handle_data_from_javascript (⟨[(0, 7)], 5⟩ : BridgeState Nat)
        (mkDataUri 0 "null".toList)
      = Except.ok (⟨[], 5⟩, 7, Json.null, []) :=
  C8_responds_on_wellformed ⟨[(0, 7)], 5⟩ 0 "null".toList Json.null 7 [] rfl rfl

theorem retryAttemptHappens_succ_iff (oracle : Nat → Bool) (n : Nat) :
    retryAttemptHappens oracle (n + 1) = true ↔ ∀ k, k ≤ n → oracle k = false := by
  induction n with
  | zero =>
    constructor
    · intro h k hk
      have hk0 : k = 0 := by omega
      subst hk0
      rw [retryAttemptHappens, retryAttemptHappens] at h
      simp only [Bool.true_and] at h
      cases ho : oracle 0
      · rfl
      · rw [ho] at h; cases h
    · intro h
      rw [retryAttemptHappens, retryAttemptHappens, h 0 (Nat.le_refl 0)]
      rfl
  | succ m ih =>
    constructor
    · intro h k hk
      rw [retryAttemptHappens, Bool.and_eq_true] at h
      by_cases hk2 : k ≤ m
      · exact ih.mp h.1 k hk2
      · have hk3 : k = m + 1 := by omega
        subst hk3
        have h2 := h.2
        cases ho : oracle (m + 1)
        · rfl
        · rw [ho] at h2; cases h2
    · intro h
      rw [retryAttemptHappens, Bool.and_eq_true]
      constructor
      · exact ih.mpr (fun k hk => h k (by omega))
      · rw [h (m + 1) (Nat.le_refl _)]
        rfl

/-- C7: while every attempt up to `n` reports failure, attempt `n+1` is
submitted, with the same payload, exactly 200ms after attempt `n`'s
completion callback; and a success at attempt `n` stops the retrying (no
attempt `n+1`).  The completion callback returns nothing in either case,
so no failure is ever surfaced to the caller. -/
theorem C7_push_retry {α : Type} (oracle : Nat → Bool) (cbDelay : Nat → Nat)
    (js : α) (n : Nat) :
    ((∀ k, k ≤ n → oracle k = false) →
      submission oracle cbDelay js (n + 1)
        = some (attemptTime cbDelay n + cbDelay n + 200, js)) ∧
    (oracle n = true → submission oracle cbDelay js (n + 1) = none) := by
  constructor
  · intro h
    rw [submission, if_pos ((retryAttemptHappens_succ_iff oracle n).mpr h),
      attemptTime]
  · intro h
    have hfail : ¬ retryAttemptHappens oracle (n + 1) = true := by
      rw [retryAttemptHappens, h]
      simp
    rw [submission, if_neg hfail]

/-- Witness for C7: with a permanently failing script, the first retry is
submitted at 200ms with the original payload. -/
theorem C7_push_retry_witness :
    submission (fun _ => false) (fun _ => 0) (0 : Nat) 1 = some (200, 0) :=
  (C7_push_retry (fun _ => false) (fun _ => 0) 0 0).1 (fun _ _ => rfl)

end MathpasteGtk
